import Mathlib

/-!
Shallow embedding of the KiCad "Auto Net Namer" plugin
(src/auto_net_namer.py, class AutoNetNamerPlugin).

Modelling choices:
* A board item (track segment, zone, pad) is a value of `ItemKind` paired
  with its current net reference.  Zone and pad geometry enter the code only
  through the opaque `HitTest` calls, so a zone carries its hit predicate
  `Point -> Bool` and a pad carries its position, hit predicate, and number
  string, exactly the data the source reads.
* A net reference is modelled by its name: `none` stands for a pad/track
  with no net object (`GetNet()` falsy), `some s` for a net named `s`
  (`GetNetname() = s`); net records on the board are the list `Board.nets`
  of their names, which is all `FindNet`, net creation and
  `used_net_names` inspect.
* Object identity (Python `id(item)`, method `get_item_id`) is modelled by
  the item's index in the single arena `Board.items`; the board's three
  collections (tracks, zones, footprint pads) are recovered by filtering
  that arena on the item kind, preserving the source's tracks-zones-pads
  enumeration order in `find_unnamed_items`.
* The allocation `while True` loop of `Run` (lines 45-49) advances a
  counter until the candidate name is fresh; it is embedded as `counter +
  Nat.find` of the least offset giving a fresh name, which is exactly the
  value the loop stops at.
-/

structure Point where
  x : Int
  y : Int
deriving DecidableEq

/-- Kind-specific payload of a conductive item: a track segment with its two
endpoints, a zone with its hit-test region, or a pad with its position,
hit-test region and number string. -/
inductive ItemKind where
  | track (startPt endPt : Point)
  | zone (hit : Point → Bool)
  | pad (pos : Point) (hit : Point → Bool) (number : String)

/-- One conductive board item: its geometry kind and its net reference
(`none` = no net object, `some s` = net named `s`). -/
structure Item where
  kind : ItemKind
  net : Option String

/-- The board: the item arena (identity = index) and the named net records. -/
structure Board where
  items : List Item
  nets : List String

def ItemKind.isTrack : ItemKind → Bool
  | .track _ _ => true
  | _ => false

def ItemKind.isZone : ItemKind → Bool
  | .zone _ => true
  | _ => false

def ItemKind.isPad : ItemKind → Bool
  | .pad _ _ _ => true
  | _ => false

/-- Test for `isinstance(it, (pcbnew.PCB_TRACK, pcbnew.ZONE))` (line 40). -/
def ItemKind.isConductor (k : ItemKind) : Bool :=
  k.isTrack || k.isZone

/-- Collection filter of `find_connected_items` (lines 94, 99, 105):
`not net or not net.GetNetname()` — no net object, or empty net name. -/
def isUnnamed (it : Item) : Bool :=
  match it.net with
  | none => true
  | some s => s == ""

/-- Net assignment `item.SetNet(n)`: replace item `i`'s net reference. -/
def Board.setNet (b : Board) (i : Nat) (name : String) : Board :=
  match b.items[i]? with
  | some it => { b with items := b.items.set i { it with net := some name } }
  | none => b

/-- Net-record creation `board.Add(pcbnew.NETINFO_ITEM(board, name))`. -/
def Board.addNet (b : Board) (name : String) : Board :=
  { b with nets := b.nets ++ [name] }

/-- Lookup `board.FindNet(name)`, as the truth of the lookup succeeding. -/
def Board.findNet (b : Board) (name : String) : Bool :=
  b.nets.contains name

/-- Indices of the unnamed items of one kind, in arena order. -/
def collectWhere (b : Board) (p : ItemKind → Bool) : List Nat :=
  (List.range b.items.length).filter fun i =>
    match b.items[i]? with
    | some it => p it.kind && isUnnamed it
    | none => false

/-- Collection phase of `find_connected_items` (lines 89-106): all tracks,
then all zones, then all pads whose net reference is absent or empty-named. -/
def find_unnamed_items (b : Board) : List Nat :=
  collectWhere b ItemKind.isTrack ++ collectWhere b ItemKind.isZone ++
    collectWhere b ItemKind.isPad

/-- The contact predicate `are_physically_connected` (lines 149-181), written
as the total dispatch over the nine ordered kind pairs that the source's
`isinstance` chain realises.  The board argument of the source is unused. -/
def are_physically_connected : ItemKind → ItemKind → Bool
  | .pad _ hit _, .track s e => hit s || hit e
  | .track s e, .pad _ hit _ => hit s || hit e
  | .pad pos _ _, .zone zhit => zhit pos
  | .zone zhit, .pad pos _ _ => zhit pos
  | .pad _ _ _, .pad _ _ _ => false
  | .track s1 e1, .track s2 e2 =>
      decide (s1 = s2) || decide (s1 = e2) || decide (e1 = s2) || decide (e1 = e2)
  | .zone zhit, .track s e => zhit s || zhit e
  | .track s e, .zone zhit => zhit s || zhit e
  | .zone _, .zone _ => false

/-- Contact between two arena indices (items absent from the arena touch
nothing; the source only ever passes real items). -/
def Board.touches (b : Board) (i j : Nat) : Bool :=
  match b.items[i]?, b.items[j]? with
  | some a, some c => are_physically_connected a.kind c.kind
  | _, _ => false

/-- Arena index `i` currently holds an item admitted by the collection
filter of lines 94/99/105. -/
def unnamedAt (b : Board) (i : Nat) : Bool :=
  match b.items[i]? with
  | some it => isUnnamed it
  | none => false

/-- Arena index `i` currently holds a track or zone (line 40). -/
def conductorAt (b : Board) (i : Nat) : Bool :=
  match b.items[i]? with
  | some it => it.kind.isConductor
  | none => false

/-- Arena index `i` currently holds a pad. -/
def padAt (b : Board) (i : Nat) : Bool :=
  match b.items[i]? with
  | some it => it.kind.isPad
  | none => false

/-- A pad whose number is in the reserved mechanical set of line 60. -/
def isMechPad : ItemKind → Bool
  | .pad _ _ num => ["0", "MP"].contains num
  | _ => false

/-- The inner BFS `while queue:` loop of `find_connected_items`
(lines 121-138).  `all` is the collected unnamed-item list, `adj` the contact
predicate; the queue is popped from the front, a visited pop is skipped, an
unvisited pop is marked visited, appended to the group, and every unvisited
collected item in contact with it is appended to the queue.  Returns the
finished group and the visited set.  The proof argument records that queue
members come from `all`, which the source guarantees by construction. -/
def bfsLoop (all : List Nat) (adj : Nat → Nat → Bool) :
    (queue : List Nat) → (visited : List Nat) → (group : List Nat) →
    (∀ x ∈ queue, x ∈ all) → List Nat × List Nat
  | [], visited, group, _ => (group, visited)
  | current :: rest, visited, group, hq =>
    if current ∈ visited then
      bfsLoop all adj rest visited group fun x hx => hq x (List.mem_cons_of_mem _ hx)
    else
      bfsLoop all adj
        (rest ++ all.filter fun o => decide (o ∉ current :: visited) && adj current o)
        (current :: visited) (group ++ [current])
        fun x hx => by
          rcases List.mem_append.1 hx with h | h
          · exact hq x (List.mem_cons_of_mem _ h)
          · exact (List.mem_filter.1 h).1
  termination_by queue visited _ _ =>
    ((all.filter fun i => decide (i ∉ visited)).length, queue.length)
  decreasing_by
  · exact Prod.Lex.right _ (by simp)
  · apply Prod.Lex.left
    have hcur : current ∈ all := hq current (List.mem_cons_self _ _)
    have hsub : List.Sublist (all.filter fun i => decide (i ∉ current :: visited))
        (all.filter fun i => decide (i ∉ visited)) := by
      apply List.monotone_filter_right
      intro a ha
      simp only [decide_eq_true_eq, List.mem_cons, not_or] at ha ⊢
      exact ha.2
    have hlen := hsub.length_le
    rcases lt_or_eq_of_le hlen with h | h
    · exact h
    · exfalso
      have := hsub.eq_of_length h
      have hmem : current ∈ all.filter fun i => decide (i ∉ visited) := by
        simp only [List.mem_filter, decide_eq_true_eq]
        exact ⟨hcur, by assumption⟩
      rw [← this] at hmem
      simp [List.mem_filter] at hmem

/-- The outer `for item in all_items:` loop of `find_connected_items`
(lines 112-141): skip visited seeds, BFS from each unvisited seed, and emit
the group when non-empty. -/
def find_groups (all : List Nat) (adj : Nat → Nat → Bool) :
    (pending : List Nat) → (visited : List Nat) →
    (∀ x ∈ pending, x ∈ all) → List (List Nat)
  | [], _, _ => []
  | item :: rest, visited, hp =>
    if item ∈ visited then
      find_groups all adj rest visited fun x hx => hp x (List.mem_cons_of_mem _ hx)
    else
      if (bfsLoop all adj [item] visited []
          (fun x hx => by
            rcases List.mem_singleton.1 hx with rfl
            exact hp x (List.mem_cons_self _ _))).1.isEmpty then
        find_groups all adj rest
          (bfsLoop all adj [item] visited []
            (fun x hx => by
              rcases List.mem_singleton.1 hx with rfl
              exact hp x (List.mem_cons_self _ _))).2
          fun x hx => hp x (List.mem_cons_of_mem _ hx)
      else
        (bfsLoop all adj [item] visited []
          (fun x hx => by
            rcases List.mem_singleton.1 hx with rfl
            exact hp x (List.mem_cons_self _ _))).1 ::
          find_groups all adj rest
            (bfsLoop all adj [item] visited []
              (fun x hx => by
                rcases List.mem_singleton.1 hx with rfl
                exact hp x (List.mem_cons_self _ _))).2
            fun x hx => hp x (List.mem_cons_of_mem _ hx)

/-- `find_connected_items` (lines 86-143): collect the unnamed items, then
group them by BFS over the contact relation. -/
def find_connected_items (b : Board) : List (List Nat) :=
  find_groups (find_unnamed_items b) b.touches (find_unnamed_items b) []
    fun _ hx => hx

/-- `get_existing_net` (lines 183-189): the first member whose net reference
carries a non-empty name, if any.  `(b.items[i]?).bind Item.net` is the
member's `GetNet()` (an index outside the arena has no net; the source only
ever receives real items). -/
def get_existing_net (b : Board) : List Nat → Option String
  | [] => none
  | i :: rest =>
    match (b.items[i]?).bind Item.net with
    | some s => if s ≠ "" then some s else get_existing_net b rest
    | none => get_existing_net b rest

/-- Decimal digit character, little helper shared with the formatter. -/
def digitChar (d : Nat) : Char :=
  Nat.digitChar d

/-- Decimal digit characters of `n`, most significant first; the fuel
argument (any bound above the digit count) makes the recursion structural. -/
def natToStringAux : Nat → Nat → List Char
  | 0, _ => []
  | fuel + 1, n =>
    if n < 10 then [digitChar n]
    else natToStringAux fuel (n / 10) ++ [digitChar (n % 10)]

/-- Decimal rendering of a natural number, most significant digit first —
the value of the Python format expression `str(counter)`. -/
def natToString (n : Nat) : String :=
  (natToStringAux (n + 1) n).asString

/-- The candidate name the f-string of line 46 builds from the counter. -/
def candName (k : Nat) : String :=
  "AUTO_" ++ natToString k

/-- The offset search realising the `while True` loop of lines 45-49: the
first offset `i` (scanning `i = 0, 1, 2, ...`, i.e. counters `c, c+1, ...`)
whose candidate name is not in the used-name set.  The loop always halts
within `used.length + 1` steps because the candidate names are pairwise
distinct, so the bounded search below returns exactly the loop's stopping
point (theorem `allocOffset_isSome`). -/
def allocOffset (used : List String) (c : Nat) : Option Nat :=
  (List.range (used.length + 1)).find? fun i => !(used.contains (candName (c + i)))

/-- The counter value at which the `while True` loop of lines 45-49 stops
(the fallback of the never-`none` bounded search is arbitrary). -/
def allocCounter (used : List String) (c : Nat) : Nat :=
  c + (allocOffset used c).getD (used.length + 1)

/-- The local state of one `Run` invocation (lines 23-28): the board, the
used-name set, the allocation counter, and the named-connections count. -/
structure PassState where
  board : Board
  used : List String
  counter : Nat
  named : Nat

/-- Per-item commit, body of the `for item in connection_group:` loop
(lines 57-70): a pad numbered `"0"` or `"MP"` goes to the ground net
(created on demand), every other item gets the new net. -/
def assignItem (b : Board) (newName : String) (i : Nat) : Board :=
  match b.items[i]? with
  | some it =>
    match it.kind with
    | .pad _ _ num =>
      if ["0", "MP"].contains num then
        let b' := if b.findNet "GND" then b else b.addNet "GND"
        b'.setNet i "GND"
      else
        b.setNet i newName
    | _ => b.setNet i newName
  | none => b

/-- Commit of one group, folding `assignItem` over its members in order. -/
def assignGroup (b : Board) (newName : String) : List Nat → Board
  | [] => b
  | i :: rest => assignGroup (assignItem b newName i) newName rest

/-- One iteration of the `for connection_group in connected_items:` loop of
`Run` (lines 31-74): skip empty groups, skip groups with an existing net,
skip groups with no track or zone, otherwise allocate the next fresh name,
ensure its net record exists, commit the group, and advance the state. -/
def processGroup (st : PassState) (g : List Nat) : PassState :=
  if g.isEmpty then st
  else if (get_existing_net st.board g).isSome then st
  else if !(g.any fun i => conductorAt st.board i) then st
  else
    let k := allocCounter st.used st.counter
    let newName := candName k
    let b0 := if st.board.findNet newName then st.board else st.board.addNet newName
    let b1 := assignGroup b0 newName g
    { board := b1, used := newName :: st.used, counter := k + 1, named := st.named + 1 }

/-- The group loop of `Run`, threading the pass state through the groups. -/
def runGroups (st : PassState) : List (List Nat) → PassState
  | [] => st
  | g :: gs => runGroups (processGroup st g) gs

/-- The initial pass state of `Run` (lines 24-28): the used-name set is the
set of non-empty names of the board's existing net records, the counter
starts at 1, no connection named yet. -/
def initState (b : Board) : PassState :=
  { board := b, used := b.nets.filter fun s => !(s == ""), counter := 1, named := 0 }

/-- `Run` on a loaded board (lines 17-84): group the unnamed items, process
every group, and return the final board together with the count of newly
named connections that the closing message box reports. -/
def Run (b : Board) : Board × Nat :=
  let st := runGroups (initState b) (find_connected_items b)
  (st.board, st.named)

/-- A full invocation: `pcbnew.GetBoard()` yields `none` when no board is
loaded, in which case the first attribute access (`board.GetTracks()` inside
`find_connected_items`, line 92) raises before any mutation, and the
exception propagates to the caller. -/
def tryRun (ob : Option Board) : Except String (Board × Nat) :=
  match ob with
  | none => Except.error "no active board"
  | some b => Except.ok (Run b)

/-- Observer used to state the in-pass behaviour of the named-group check:
the value `get_existing_net` returns for each group at the moment `Run`'s
loop reaches it. -/
def checksLoop (st : PassState) : List (List Nat) → List (Option String)
  | [] => []
  | g :: gs => get_existing_net st.board g :: checksLoop (processGroup st g) gs

/-- The sequence of named-group check results over one full pass. -/
def passChecks (b : Board) : List (Option String) :=
  checksLoop (initState b) (find_connected_items b)

/-! ## Basic facts about kinds and names -/

theorem isPad_of_not_conductor (k : ItemKind) (h : k.isConductor = false) :
    k.isPad = true := by
  cases k <;> simp_all [ItemKind.isConductor, ItemKind.isTrack, ItemKind.isZone, ItemKind.isPad]

theorem not_conductor_of_isPad (k : ItemKind) (h : k.isPad = true) :
    k.isConductor = false := by
  cases k <;> simp_all [ItemKind.isConductor, ItemKind.isTrack, ItemKind.isZone, ItemKind.isPad]

theorem digitChar_injOn : ∀ a, a < 10 → ∀ b, b < 10 → digitChar a = digitChar b → a = b := by
  decide

theorem map_digitChar_inj :
    ∀ l1 l2 : List Nat, (∀ x ∈ l1, x < 10) → (∀ x ∈ l2, x < 10) →
      l1.map digitChar = l2.map digitChar → l1 = l2 := by
  intro l1
  induction l1 with
  | nil => intro l2 _ _ h; cases l2 <;> simp_all
  | cons x xs ih =>
    intro l2 h1 h2 h
    cases l2 with
    | nil => simp at h
    | cons y ys =>
      simp only [List.map_cons, List.cons.injEq] at h
      have hx : x = y :=
        digitChar_injOn x (h1 x (List.mem_cons_self _ _)) y (h2 y (List.mem_cons_self _ _)) h.1
      have hrest : xs = ys :=
        ih ys (fun z hz => h1 z (List.mem_cons_of_mem _ hz))
          (fun z hz => h2 z (List.mem_cons_of_mem _ hz)) h.2
      rw [hx, hrest]

theorem natToStringAux_spec :
    ∀ fuel n, n < fuel →
      natToStringAux fuel n =
        if n = 0 then [digitChar 0] else (Nat.digits 10 n).reverse.map digitChar := by
  intro fuel
  induction fuel with
  | zero => intro n h; exact absurd h (Nat.not_lt_zero n)
  | succ f ih =>
    intro n h
    by_cases h10 : n < 10
    · rw [natToStringAux, if_pos h10]
      by_cases h0 : n = 0
      · subst h0; simp
      · rw [if_neg h0]
        rw [Nat.digits_def' (by norm_num : (1 : ℕ) < 10) (Nat.pos_of_ne_zero h0)]
        rw [Nat.div_eq_of_lt h10, Nat.mod_eq_of_lt h10]
        simp
    · rw [natToStringAux, if_neg h10]
      have hn0 : n ≠ 0 := by omega
      have hdiv_lt : n / 10 < f := by
        have h1 : n / 10 < n := Nat.div_lt_self (by omega) (by norm_num)
        omega
      have hdiv_ne : n / 10 ≠ 0 := by
        have : 10 ≤ n := le_of_not_lt h10
        have := (Nat.one_le_div_iff (by norm_num : 0 < 10)).mpr this
        omega
      rw [ih (n / 10) hdiv_lt, if_neg hdiv_ne, if_neg hn0]
      rw [Nat.digits_def' (by norm_num : (1 : ℕ) < 10) (Nat.pos_of_ne_zero hn0)]
      simp

theorem natToString_inj : Function.Injective natToString := by
  intro a b h
  unfold natToString at h
  rw [List.asString_inj] at h
  rw [natToStringAux_spec _ _ (Nat.lt_succ_self a),
    natToStringAux_spec _ _ (Nat.lt_succ_self b)] at h
  by_cases ha : a = 0 <;> by_cases hb : b = 0
  · omega
  · exfalso
    rw [if_pos ha, if_neg hb] at h
    have hlen := congrArg List.length h
    simp only [List.length_map, List.length_reverse, List.length_singleton] at hlen
    obtain ⟨d, hd⟩ := List.length_eq_one.mp hlen.symm
    have hd10 : d < 10 :=
      Nat.digits_lt_base (by norm_num) (hd ▸ List.mem_cons_self d [])
    rw [hd] at h
    simp only [List.reverse_singleton, List.map_cons, List.map_nil,
      List.cons.injEq] at h
    have : d = 0 := digitChar_injOn d hd10 0 (by norm_num) h.1.symm
    have hofd := Nat.ofDigits_digits 10 b
    rw [hd, this] at hofd
    simp [Nat.ofDigits] at hofd
    exact hb hofd.symm
  · exfalso
    rw [if_neg ha, if_pos hb] at h
    have hlen := congrArg List.length h
    simp only [List.length_map, List.length_reverse, List.length_singleton] at hlen
    obtain ⟨d, hd⟩ := List.length_eq_one.mp hlen
    have hd10 : d < 10 :=
      Nat.digits_lt_base (by norm_num) (hd ▸ List.mem_cons_self d [])
    rw [hd] at h
    simp only [List.reverse_singleton, List.map_cons, List.map_nil,
      List.cons.injEq] at h
    have : d = 0 := digitChar_injOn d hd10 0 (by norm_num) h.1
    have hofd := Nat.ofDigits_digits 10 a
    rw [hd, this] at hofd
    simp [Nat.ofDigits] at hofd
    exact ha hofd.symm
  · rw [if_neg ha, if_neg hb] at h
    have hrev : (Nat.digits 10 a).reverse = (Nat.digits 10 b).reverse :=
      map_digitChar_inj _ _
        (fun x hx => Nat.digits_lt_base (by norm_num) (List.mem_reverse.mp hx))
        (fun x hx => Nat.digits_lt_base (by norm_num) (List.mem_reverse.mp hx)) h
    exact Nat.digits_inj_iff.mp (List.reverse_inj.mp hrev)

theorem candName_inj : Function.Injective candName := by
  intro a b h
  apply natToString_inj
  have hd := congrArg String.data h
  rw [candName, candName, String.data_append, String.data_append] at hd
  exact String.ext (List.append_cancel_left hd)

theorem candName_ne_empty (k : Nat) : candName k ≠ "" := by
  intro h
  have hlen := congrArg String.length h
  rw [candName, String.length_append] at hlen
  have h5 : ("AUTO_" : String).length = 5 := rfl
  have h0 : ("" : String).length = 0 := rfl
  omega

/-! ## The allocator: termination, freshness, minimality -/

theorem contains_true_iff {a : String} {l : List String} : l.contains a = true ↔ a ∈ l :=
  List.elem_iff

theorem allocOffset_isSome (used : List String) (c : Nat) :
    (allocOffset used c).isSome := by
  rw [allocOffset]
  cases hfind : (List.range (used.length + 1)).find?
      fun i => !(used.contains (candName (c + i))) with
  | some i => simp
  | none =>
    exfalso
    rw [List.find?_eq_none] at hfind
    have hmem : ∀ x ∈ List.range (used.length + 1), candName (c + x) ∈ used := by
      intro x hx
      have hx2 := hfind x hx
      have hx3 : used.contains (candName (c + x)) = true := by
        revert hx2; cases used.contains (candName (c + x)) <;> simp
      exact contains_true_iff.mp hx3
    have hnd : ((List.range (used.length + 1)).map fun i => candName (c + i)).Nodup :=
      List.Nodup.map (fun x y hxy => by have := candName_inj hxy; omega)
        (List.nodup_range _)
    have hsub : ((List.range (used.length + 1)).map fun i => candName (c + i)).toFinset ⊆
        used.toFinset := by
      intro x hx
      rw [List.mem_toFinset] at hx ⊢
      obtain ⟨i, hi, rfl⟩ := List.mem_map.mp hx
      exact hmem i hi
    have hcard := Finset.card_le_card hsub
    rw [List.toFinset_card_of_nodup hnd] at hcard
    have hlen : ((List.range (used.length + 1)).map fun i => candName (c + i)).length =
        used.length + 1 := by simp
    have := List.toFinset_card_le used
    omega

theorem allocCounter_spec (used : List String) (c : Nat) :
    c ≤ allocCounter used c ∧ candName (allocCounter used c) ∉ used ∧
      ∀ j, c ≤ j → j < allocCounter used c → candName j ∈ used := by
  obtain ⟨i, hi⟩ := Option.isSome_iff_exists.mp (allocOffset_isSome used c)
  have hcnt : allocCounter used c = c + i := by rw [allocCounter, hi]; rfl
  rw [allocOffset] at hi
  obtain ⟨hp, as, bs, hsplit, hprev⟩ := List.find?_eq_some.mp hi
  refine ⟨by omega, ?_, ?_⟩
  · rw [hcnt]
    intro hmem
    have hc := contains_true_iff.mpr hmem
    rw [hc] at hp
    simp at hp
  · intro j hcj hjlt
    rw [hcnt] at hjlt
    have hlens := congrArg List.length hsplit
    simp only [List.length_range, List.length_append, List.length_cons] at hlens
    have hlt : as.length < used.length + 1 := by omega
    have haslen : as.length = i := by
      have hgl := congrArg (fun l => l[as.length]?) hsplit
      simp only at hgl
      rw [List.getElem?_range hlt] at hgl
      rw [List.getElem?_append_right (le_refl _)] at hgl
      simp at hgl
      omega
    have hasval : as = List.range i := by
      have htk := List.take_left as (i :: bs)
      rw [← hsplit, haslen, List.take_range] at htk
      rw [← htk]
      congr 1
      omega
    have hji : j - c ∈ as := by
      rw [hasval, List.mem_range]
      omega
    have := hprev _ hji
    simp only [Bool.not_not] at this
    have hj : candName (c + (j - c)) ∈ used := List.elem_iff.mp this
    have : c + (j - c) = j := by omega
    rwa [this] at hj

/-! ## Symmetry of the contact predicate -/

theorem decide_point_comm (p q : Point) : decide (p = q) = decide (q = p) := by
  simp [eq_comm]

theorem are_physically_connected_comm (a b : ItemKind) :
    are_physically_connected a b = are_physically_connected b a := by
  cases a <;> cases b <;> first
    | rfl
    | · simp only [are_physically_connected]
        refine Bool.eq_iff_iff.mpr ?_
        simp only [Bool.or_eq_true, decide_eq_true_eq]
        constructor
        · rintro (((h | h) | h) | h)
          · exact Or.inl (Or.inl (Or.inl h.symm))
          · exact Or.inl (Or.inr h.symm)
          · exact Or.inl (Or.inl (Or.inr h.symm))
          · exact Or.inr h.symm
        · rintro (((h | h) | h) | h)
          · exact Or.inl (Or.inl (Or.inl h.symm))
          · exact Or.inl (Or.inr h.symm)
          · exact Or.inl (Or.inl (Or.inr h.symm))
          · exact Or.inr h.symm

/-! ## The collector -/

theorem mem_collectWhere {b : Board} {p : ItemKind → Bool} {i : Nat} :
    i ∈ collectWhere b p ↔
      ∃ it, b.items[i]? = some it ∧ p it.kind = true ∧ isUnnamed it = true := by
  rw [collectWhere, List.mem_filter, List.mem_range]
  constructor
  · rintro ⟨hlt, hcond⟩
    cases h : b.items[i]? with
    | none => rw [h] at hcond; simp at hcond
    | some it =>
      rw [h] at hcond
      simp only [Bool.and_eq_true] at hcond
      exact ⟨it, rfl, hcond.1, hcond.2⟩
  · rintro ⟨it, hit, hp, hu⟩
    have hlt : i < b.items.length := by
      by_contra hge
      rw [List.getElem?_eq_none (le_of_not_lt hge)] at hit
      cases hit
    refine ⟨hlt, ?_⟩
    rw [hit]
    simp [hp, hu]

theorem mem_find_unnamed_items {b : Board} {i : Nat} :
    i ∈ find_unnamed_items b ↔ ∃ it, b.items[i]? = some it ∧ isUnnamed it = true := by
  rw [find_unnamed_items]
  simp only [List.mem_append, mem_collectWhere]
  constructor
  · rintro ((⟨it, h1, _, h3⟩ | ⟨it, h1, _, h3⟩) | ⟨it, h1, _, h3⟩) <;> exact ⟨it, h1, h3⟩
  · rintro ⟨it, h1, h3⟩
    cases hk : it.kind with
    | track s e => exact Or.inl (Or.inl ⟨it, h1, by rw [hk]; rfl, h3⟩)
    | zone z => exact Or.inl (Or.inr ⟨it, h1, by rw [hk]; rfl, h3⟩)
    | pad pos hit num => exact Or.inr ⟨it, h1, by rw [hk]; rfl, h3⟩

theorem collectWhere_nodup (b : Board) (p : ItemKind → Bool) :
    (collectWhere b p).Nodup :=
  List.Nodup.filter _ (List.nodup_range _)

theorem collectWhere_disjoint {b : Board} {p q : ItemKind → Bool}
    (h : ∀ k : ItemKind, ¬(p k = true ∧ q k = true)) :
    (collectWhere b p).Disjoint (collectWhere b q) := by
  intro i h1 h2
  obtain ⟨it, hit, hp, _⟩ := mem_collectWhere.mp h1
  obtain ⟨it', hit', hq, _⟩ := mem_collectWhere.mp h2
  rw [hit] at hit'
  cases hit'
  exact h it.kind ⟨hp, hq⟩

theorem find_unnamed_items_nodup (b : Board) : (find_unnamed_items b).Nodup := by
  rw [find_unnamed_items]
  refine List.Nodup.append (List.Nodup.append (collectWhere_nodup _ _)
    (collectWhere_nodup _ _) ?_) (collectWhere_nodup _ _) ?_
  · exact collectWhere_disjoint fun k => by cases k <;> simp [ItemKind.isTrack, ItemKind.isZone]
  · intro i h1 h2
    rcases List.mem_append.mp h1 with h1 | h1
    · exact collectWhere_disjoint
        (fun k => by cases k <;> simp [ItemKind.isTrack, ItemKind.isPad]) h1 h2
    · exact collectWhere_disjoint
        (fun k => by cases k <;> simp [ItemKind.isZone, ItemKind.isPad]) h1 h2

/-! ## The grouper: BFS specification -/

theorem bfsLoop_nil (all : List Nat) (adj : Nat → Nat → Bool) (visited group : List Nat)
    (hq : ∀ x ∈ ([] : List Nat), x ∈ all) :
    bfsLoop all adj [] visited group hq = (group, visited) := by
  rw [bfsLoop]

theorem bfsLoop_cons_visited (all : List Nat) (adj : Nat → Nat → Bool)
    (current : Nat) (rest visited group : List Nat)
    (hq : ∀ x ∈ current :: rest, x ∈ all) (hq' : ∀ x ∈ rest, x ∈ all)
    (h : current ∈ visited) :
    bfsLoop all adj (current :: rest) visited group hq =
      bfsLoop all adj rest visited group hq' := by
  rw [bfsLoop, if_pos h]

theorem bfsLoop_cons_new (all : List Nat) (adj : Nat → Nat → Bool)
    (current : Nat) (rest visited group : List Nat)
    (hq : ∀ x ∈ current :: rest, x ∈ all)
    (hq' : ∀ x ∈ rest ++ all.filter fun o => decide (o ∉ current :: visited) && adj current o,
      x ∈ all)
    (h : current ∉ visited) :
    bfsLoop all adj (current :: rest) visited group hq =
      bfsLoop all adj
        (rest ++ all.filter fun o => decide (o ∉ current :: visited) && adj current o)
        (current :: visited) (group ++ [current]) hq' := by
  rw [bfsLoop, if_neg h]

theorem bfsLoop_spec (all : List Nat) (adj : Nat → Nat → Bool) :
    ∀ (queue visited group : List Nat) (hq : ∀ x ∈ queue, x ∈ all),
      ∃ d, (bfsLoop all adj queue visited group hq).1 = group ++ d ∧
        List.Perm (bfsLoop all adj queue visited group hq).2 (d ++ visited) ∧
        (∀ x ∈ d, x ∈ all ∧ x ∉ visited) ∧
        (visited.Nodup → (bfsLoop all adj queue visited group hq).2.Nodup) ∧
        (∀ x ∈ queue, x ∈ (bfsLoop all adj queue visited group hq).2) := by
  intro queue visited group hq
  induction queue, visited, group, hq using bfsLoop.induct all adj with
  | case1 visited group hq hq2 =>
    refine ⟨[], ?_, ?_, ?_, ?_, ?_⟩ <;> simp [bfsLoop_nil]
  | case2 current rest visited group hq hcur hq2 ih =>
    obtain ⟨d, h1, h2, h3, h4, h5⟩ := ih
    rw [bfsLoop_cons_visited all adj current rest visited group hq
      (fun x hx => hq x (List.mem_cons_of_mem _ hx)) hcur]
    refine ⟨d, h1, h2, h3, h4, ?_⟩
    intro x hx
    rcases List.mem_cons.mp hx with rfl | hx
    · exact (h2.mem_iff).mpr (List.mem_append_right _ hcur)
    · exact h5 x hx
  | case3 current rest visited group hq hcur hq2 ih =>
    obtain ⟨d, h1, h2, h3, h4, h5⟩ := ih
    rw [bfsLoop_cons_new all adj current rest visited group hq
      (fun x hx => by
        rcases List.mem_append.1 hx with h | h
        · exact hq x (List.mem_cons_of_mem _ h)
        · exact (List.mem_filter.1 h).1) hcur]
    refine ⟨current :: d, ?_, ?_, ?_, ?_, ?_⟩
    · rw [h1]; simp
    · refine h2.trans ?_
      refine (List.perm_middle).trans ?_
      exact List.Perm.refl _
    · intro x hx
      rcases List.mem_cons.mp hx with rfl | hx
      · exact ⟨hq x (List.mem_cons_self _ _), hcur⟩
      · obtain ⟨ha, hv⟩ := h3 x hx
        exact ⟨ha, fun hmem => hv (List.mem_cons_of_mem _ hmem)⟩
    · intro hnd
      exact h4 (List.nodup_cons.mpr ⟨hcur, hnd⟩)
    · intro x hx
      rcases List.mem_cons.mp hx with rfl | hx
      · exact (h2.mem_iff).mpr
          (List.mem_append_right _ (List.mem_cons_self _ _))
      · exact h5 x (List.mem_append_left _ hx)

theorem find_groups_nil (all : List Nat) (adj : Nat → Nat → Bool) (visited : List Nat)
    (hp : ∀ x ∈ ([] : List Nat), x ∈ all) :
    find_groups all adj [] visited hp = [] := by
  rw [find_groups]

theorem find_groups_cons (all : List Nat) (adj : Nat → Nat → Bool)
    (item : Nat) (rest visited : List Nat) (hp : ∀ x ∈ item :: rest, x ∈ all)
    (pf : ∀ x ∈ [item], x ∈ all) (pf2 : ∀ x ∈ rest, x ∈ all) :
    find_groups all adj (item :: rest) visited hp =
      if item ∈ visited then
        find_groups all adj rest visited pf2
      else
        if (bfsLoop all adj [item] visited [] pf).1.isEmpty then
          find_groups all adj rest (bfsLoop all adj [item] visited [] pf).2 pf2
        else
          (bfsLoop all adj [item] visited [] pf).1 ::
            find_groups all adj rest (bfsLoop all adj [item] visited [] pf).2 pf2 := by
  rw [find_groups]

theorem find_groups_spec (all : List Nat) (adj : Nat → Nat → Bool) :
    ∀ (pending visited : List Nat) (hp : ∀ x ∈ pending, x ∈ all),
      ∃ V, List.Perm ((find_groups all adj pending visited hp).flatten ++ visited) V ∧
        (visited.Nodup → V.Nodup) ∧
        (∀ x ∈ V, x ∈ visited ∨ x ∈ all) ∧
        (∀ x ∈ pending, x ∈ V) := by
  intro pending
  induction pending with
  | nil =>
    intro v hp
    refine ⟨v, by simp [find_groups_nil], fun h => h, fun x hx => Or.inl hx, by simp⟩
  | cons item rest ih =>
    intro v hp
    have pf : ∀ x ∈ [item], x ∈ all := by
      intro x hx
      rcases List.mem_singleton.1 hx with rfl
      exact hp x (List.mem_cons_self _ _)
    have pf2 : ∀ x ∈ rest, x ∈ all := fun x hx => hp x (List.mem_cons_of_mem _ hx)
    rw [find_groups_cons all adj item rest v hp pf pf2]
    by_cases hvis : item ∈ v
    · rw [if_pos hvis]
      obtain ⟨V, h1, h2, h3, h4⟩ := ih v pf2
      refine ⟨V, h1, h2, h3, ?_⟩
      intro x hx
      rcases List.mem_cons.mp hx with rfl | hx
      · exact h1.mem_iff.mp (List.mem_append_right _ hvis)
      · exact h4 x hx
    · rw [if_neg hvis]
      obtain ⟨d, hb1, hb2, hb3, hb4, hb5⟩ := bfsLoop_spec all adj [item] v [] pf
      set r := bfsLoop all adj [item] v [] pf with hr
      simp only [List.nil_append] at hb1
      obtain ⟨V, h1, h2, h3, h4⟩ := ih r.2 pf2
      have hitem : item ∈ V := by
        have : item ∈ r.2 := hb5 item (List.mem_singleton.mpr rfl)
        exact h1.mem_iff.mp (List.mem_append_right _ this)
      have hVmem : ∀ x ∈ V, x ∈ v ∨ x ∈ all := by
        intro x hx
        rcases h3 x hx with hx2 | hx2
        · rcases List.mem_append.mp (hb2.mem_iff.mp hx2) with hx3 | hx3
          · exact Or.inr (hb3 x hx3).1
          · exact Or.inl hx3
        · exact Or.inr hx2
      have hVnodup : v.Nodup → V.Nodup := fun hv => h2 (hb4 hv)
      have hcover : ∀ x ∈ item :: rest, x ∈ V := by
        intro x hx
        rcases List.mem_cons.mp hx with rfl | hx
        · exact hitem
        · exact h4 x hx
      by_cases hemp : r.1.isEmpty
      · rw [if_pos hemp]
        have hd : d = [] := by
          have hb1' := hb1
          rw [List.isEmpty_iff] at hemp
          rw [hemp] at hb1'
          exact hb1'.symm
        refine ⟨V, ?_, hVnodup, hVmem, hcover⟩
        have hr2v : List.Perm r.2 v := by
          rw [hd] at hb2
          simpa using hb2
        refine List.Perm.trans ?_ h1
        exact List.Perm.append_left _ hr2v.symm
      · rw [if_neg hemp]
        refine ⟨V, ?_, hVnodup, hVmem, hcover⟩
        rw [List.flatten_cons, hb1]
        refine List.Perm.trans ?_ h1
        have hstep1 : (d ++ (find_groups all adj rest r.2 pf2).flatten) ++ v =
            d ++ ((find_groups all adj rest r.2 pf2).flatten ++ v) := by
          rw [List.append_assoc]
        rw [hstep1]
        refine List.Perm.trans (List.perm_append_comm_assoc _ _ _) ?_
        exact List.Perm.append_left _ hb2.symm

theorem find_connected_items_perm (b : Board) :
    List.Perm (find_connected_items b).flatten (find_unnamed_items b) := by
  obtain ⟨V, h1, h2, h3, h4⟩ := find_groups_spec (find_unnamed_items b) b.touches
    (find_unnamed_items b) [] fun x hx => hx
  rw [find_connected_items]
  have hVn : V.Nodup := h2 List.nodup_nil
  have hflat : List.Perm (find_groups (find_unnamed_items b) b.touches
      (find_unnamed_items b) [] fun x hx => hx).flatten V := by
    simpa using h1
  have hVsub : ∀ x ∈ V, x ∈ find_unnamed_items b := by
    intro x hx
    rcases h3 x hx with hx2 | hx2
    · simp at hx2
    · exact hx2
  have hall : List.Perm V (find_unnamed_items b) :=
    (List.perm_ext_iff_of_nodup hVn (find_unnamed_items_nodup b)).mpr
      fun a => ⟨fun h => hVsub a h, fun h => h4 a h⟩
  exact hflat.trans hall

theorem find_connected_items_flatten_nodup (b : Board) :
    (find_connected_items b).flatten.Nodup :=
  ((find_connected_items_perm b).nodup_iff).mpr (find_unnamed_items_nodup b)

theorem mem_group_mem_collected {b : Board} {g : List Nat} {i : Nat}
    (hg : g ∈ find_connected_items b) (hi : i ∈ g) :
    i ∈ find_unnamed_items b :=
  (find_connected_items_perm b).mem_iff.mp (List.mem_flatten.mpr ⟨g, hg, hi⟩)

theorem find_connected_items_pairwise (b : Board) :
    List.Pairwise List.Disjoint (find_connected_items b) :=
  ((List.nodup_flatten).mp (find_connected_items_flatten_nodup b)).2

/-! ## Frame and commit lemmas for the mutators -/

theorem setNet_items_ne (b : Board) (i j : Nat) (n : String) (h : i ≠ j) :
    (b.setNet i n).items[j]? = b.items[j]? := by
  rw [Board.setNet]
  cases hbi : b.items[i]? with
  | none => rfl
  | some it => exact List.getElem?_set_ne h

theorem setNet_items_self {b : Board} {i : Nat} {it : Item} (n : String)
    (h : b.items[i]? = some it) :
    (b.setNet i n).items[i]? = some { it with net := some n } := by
  rw [Board.setNet, h]
  have hlt : i < b.items.length := by
    by_contra hge
    rw [List.getElem?_eq_none (le_of_not_lt hge)] at h
    cases h
  exact List.getElem?_set_self hlt

theorem setNet_nets (b : Board) (i : Nat) (n : String) : (b.setNet i n).nets = b.nets := by
  rw [Board.setNet]
  cases b.items[i]? <;> rfl

theorem addNet_items (b : Board) (n : String) : (b.addNet n).items = b.items := rfl

theorem setNet_kind (b : Board) (i : Nat) (n : String) (j : Nat) :
    ((b.setNet i n).items[j]?).map Item.kind = (b.items[j]?).map Item.kind := by
  by_cases hij : i = j
  · subst hij
    cases hbi : b.items[i]? with
    | none => simp [Board.setNet, hbi]
    | some it => simp [setNet_items_self n hbi, hbi]
  · rw [setNet_items_ne b i j n hij]

theorem assignItem_items_ne (b : Board) (n : String) (i j : Nat) (h : i ≠ j) :
    (assignItem b n i).items[j]? = b.items[j]? := by
  rw [assignItem]
  cases hbi : b.items[i]? with
  | none => rfl
  | some it =>
    obtain ⟨k, net⟩ := it
    cases k with
    | track s e => exact setNet_items_ne b i j n h
    | zone z => exact setNet_items_ne b i j n h
    | pad pos hit num =>
      simp only
      by_cases hm : (["0", "MP"].contains num) = true
      · rw [if_pos hm]
        by_cases hg : b.findNet "GND" = true
        · rw [if_pos hg]
          exact setNet_items_ne b i j "GND" h
        · rw [if_neg hg]
          rw [setNet_items_ne (b.addNet "GND") i j "GND" h]
          rfl
      · rw [if_neg hm]
        exact setNet_items_ne b i j n h

theorem assignItem_nets_mono (b : Board) (n : String) (i : Nat) :
    ∀ m ∈ b.nets, m ∈ (assignItem b n i).nets := by
  intro m hm
  rw [assignItem]
  cases hbi : b.items[i]? with
  | none => exact hm
  | some it =>
    obtain ⟨k, net⟩ := it
    cases k with
    | track s e => rw [setNet_nets]; exact hm
    | zone z => rw [setNet_nets]; exact hm
    | pad pos hit num =>
      simp only
      by_cases hmech : (["0", "MP"].contains num) = true
      · rw [if_pos hmech]
        by_cases hg : b.findNet "GND" = true
        · rw [if_pos hg, setNet_nets]; exact hm
        · rw [if_neg hg, setNet_nets]
          exact List.mem_append_left _ hm
      · rw [if_neg hmech, setNet_nets]; exact hm

theorem assignItem_self {b : Board} {i : Nat} {it : Item} (n : String)
    (h : b.items[i]? = some it) :
    (assignItem b n i).items[i]? =
      some { it with net := if isMechPad it.kind then some "GND" else some n } ∧
    (isMechPad it.kind = true → "GND" ∈ (assignItem b n i).nets) := by
  rw [assignItem, h]
  obtain ⟨k, net⟩ := it
  cases k with
  | track s e =>
    exact ⟨setNet_items_self n h, fun hmech => by simp [isMechPad] at hmech⟩
  | zone z =>
    exact ⟨setNet_items_self n h, fun hmech => by simp [isMechPad] at hmech⟩
  | pad pos hit num =>
    simp only [isMechPad]
    by_cases hmech : (["0", "MP"].contains num) = true
    · rw [if_pos hmech, if_pos hmech]
      have hb' : (if b.findNet "GND" = true then b else b.addNet "GND").items[i]? =
          some ⟨ItemKind.pad pos hit num, net⟩ := by
        by_cases hg : b.findNet "GND" = true
        · rw [if_pos hg]; exact h
        · rw [if_neg hg]; exact h
      constructor
      · exact setNet_items_self "GND" hb'
      · intro _
        rw [setNet_nets]
        by_cases hg : b.findNet "GND" = true
        · rw [if_pos hg]
          exact contains_true_iff.mp hg
        · rw [if_neg hg]
          exact List.mem_append_right _ (List.mem_singleton.mpr rfl)
    · rw [if_neg hmech, if_neg hmech]
      exact ⟨setNet_items_self n h, fun hmech2 => absurd hmech2 hmech⟩

theorem assignItem_kind (b : Board) (n : String) (i j : Nat) :
    ((assignItem b n i).items[j]?).map Item.kind = (b.items[j]?).map Item.kind := by
  by_cases hij : i = j
  · subst hij
    cases hbi : b.items[i]? with
    | none => simp [assignItem, hbi]
    | some it => simp [(assignItem_self n hbi).1, hbi]
  · rw [assignItem_items_ne b n i j hij]

theorem assignGroup_items_ne (n : String) (j : Nat) :
    ∀ (g : List Nat) (b : Board), j ∉ g →
      (assignGroup b n g).items[j]? = b.items[j]? := by
  intro g
  induction g with
  | nil => intro b _; rfl
  | cons i rest ih =>
    intro b hj
    rw [assignGroup]
    have hij : i ≠ j := fun h => hj (h ▸ List.mem_cons_self _ _)
    rw [ih (assignItem b n i) fun h => hj (List.mem_cons_of_mem _ h)]
    exact assignItem_items_ne b n i j hij

theorem assignGroup_nets_mono (n : String) :
    ∀ (g : List Nat) (b : Board), ∀ m ∈ b.nets, m ∈ (assignGroup b n g).nets := by
  intro g
  induction g with
  | nil => intro b m hm; exact hm
  | cons i rest ih =>
    intro b m hm
    rw [assignGroup]
    exact ih (assignItem b n i) m (assignItem_nets_mono b n i m hm)

theorem assignGroup_kind (n : String) (j : Nat) :
    ∀ (g : List Nat) (b : Board),
      ((assignGroup b n g).items[j]?).map Item.kind = (b.items[j]?).map Item.kind := by
  intro g
  induction g with
  | nil => intro b; rfl
  | cons i rest ih =>
    intro b
    rw [assignGroup, ih (assignItem b n i)]
    exact assignItem_kind b n i j

theorem assignGroup_member_net (n : String) (i : Nat) :
    ∀ (g : List Nat) (b : Board) (it : Item), b.items[i]? = some it →
      (i ∈ g ∨ it.net = (if isMechPad it.kind then some "GND" else some n)) →
      ∃ it', (assignGroup b n g).items[i]? = some it' ∧ it'.kind = it.kind ∧
        it'.net = (if isMechPad it.kind then some "GND" else some n) := by
  intro g
  induction g with
  | nil =>
    intro b it h hcase
    rcases hcase with hmem | hnet
    · simp at hmem
    · exact ⟨it, h, rfl, hnet⟩
  | cons j rest ih =>
    intro b it h hcase
    rw [assignGroup]
    by_cases hij : j = i
    · subst hij
      obtain ⟨h1, _⟩ := assignItem_self n h
      obtain ⟨it', hit', hkind, hnet⟩ := ih (assignItem b n j)
        { it with net := if isMechPad it.kind then some "GND" else some n } h1
        (Or.inr rfl)
      exact ⟨it', hit', hkind, hnet⟩
    · have h1 : (assignItem b n j).items[i]? = some it := by
        rw [assignItem_items_ne b n j i hij]
        exact h
      rcases hcase with hmem | hnet
      · rcases List.mem_cons.mp hmem with rfl | hmem
        · exact absurd rfl hij
        · exact ih (assignItem b n j) it h1 (Or.inl hmem)
      · exact ih (assignItem b n j) it h1 (Or.inr hnet)

theorem assignGroup_gnd (n : String) (i : Nat) :
    ∀ (g : List Nat) (b : Board) (it : Item), b.items[i]? = some it →
      i ∈ g → isMechPad it.kind = true → "GND" ∈ (assignGroup b n g).nets := by
  intro g
  induction g with
  | nil => intro b it _ hmem _; simp at hmem
  | cons j rest ih =>
    intro b it h hmem hmech
    rw [assignGroup]
    by_cases hij : j = i
    · subst hij
      obtain ⟨_, h2⟩ := assignItem_self n h
      exact assignGroup_nets_mono n rest (assignItem b n j) "GND" (h2 hmech)
    · have h1 : (assignItem b n j).items[i]? = some it := by
        rw [assignItem_items_ne b n j i hij]
        exact h
      rcases List.mem_cons.mp hmem with rfl | hmem
      · exact absurd rfl hij
      · exact ih (assignItem b n j) it h1 hmem hmech

/-! ## The named-group check -/

theorem get_existing_net_none {b : Board} :
    ∀ g : List Nat, (∀ i ∈ g, ∀ it, b.items[i]? = some it → isUnnamed it = true) →
      get_existing_net b g = none := by
  intro g
  induction g with
  | nil => intro _; rfl
  | cons i rest ih =>
    intro h
    rw [get_existing_net]
    have hrest := ih fun j hj it hit => h j (List.mem_cons_of_mem _ hj) it hit
    cases hbn : (b.items[i]?).bind Item.net with
    | none => exact hrest
    | some s =>
      obtain ⟨it, hbi, hnet⟩ := Option.bind_eq_some.mp hbn
      have hu := h i (List.mem_cons_self _ _) it hbi
      rw [isUnnamed, hnet] at hu
      have hs : s = "" := by simpa using hu
      show (if s ≠ "" then some s else get_existing_net b rest) = none
      rw [if_neg (by simp [hs])]
      exact hrest

theorem get_existing_net_isSome {b : Board} {i : Nat} {it : Item} {s : String} :
    ∀ g : List Nat, i ∈ g → b.items[i]? = some it → it.net = some s → s ≠ "" →
      (get_existing_net b g).isSome = true := by
  intro g
  induction g with
  | nil => intro hmem; simp at hmem
  | cons j rest ih =>
    intro hmem hit hnet hs
    rw [get_existing_net]
    cases hbn : (b.items[j]?).bind Item.net with
    | none =>
      show (get_existing_net b rest).isSome = true
      rcases List.mem_cons.mp hmem with rfl | hmem
      · rw [hit] at hbn
        simp only [Option.some_bind] at hbn
        rw [hnet] at hbn
        cases hbn
      · exact ih hmem hit hnet hs
    | some t =>
      show (if t ≠ "" then some t else get_existing_net b rest).isSome = true
      by_cases ht : t ≠ ""
      · rw [if_pos ht]; rfl
      · rw [if_neg ht]
        rcases List.mem_cons.mp hmem with rfl | hmem
        · obtain ⟨jt, hbj, hjnet⟩ := Option.bind_eq_some.mp hbn
          rw [hbj] at hit
          cases hit
          rw [hjnet] at hnet
          cases hnet
          exact absurd hs (by simpa using ht)
        · exact ih hmem hit hnet hs

/-! ## One group-loop iteration -/

theorem processGroup_skip_existing {st : PassState} {g : List Nat}
    (h : (get_existing_net st.board g).isSome = true) : processGroup st g = st := by
  rw [processGroup]
  by_cases he : g.isEmpty = true
  · rw [if_pos he]
  · rw [if_neg he, if_pos h]

theorem processGroup_skip_no_conductor {st : PassState} {g : List Nat}
    (h : ∀ i ∈ g, conductorAt st.board i = false) : processGroup st g = st := by
  rw [processGroup]
  by_cases he : g.isEmpty = true
  · rw [if_pos he]
  · rw [if_neg he]
    by_cases hex : (get_existing_net st.board g).isSome = true
    · rw [if_pos hex]
    · rw [if_neg hex]
      have hany : (g.any fun i => conductorAt st.board i) = false :=
        List.any_eq_false.mpr fun i hi => by simp [h i hi]
      rw [if_pos (by rw [hany]; rfl)]

theorem processGroup_commit {st : PassState} {g : List Nat} (he : g.isEmpty = false)
    (hex : get_existing_net st.board g = none)
    (hcond : (g.any fun i => conductorAt st.board i) = true) :
    processGroup st g =
      { board := assignGroup
          (if st.board.findNet (candName (allocCounter st.used st.counter)) = true then st.board
            else st.board.addNet (candName (allocCounter st.used st.counter)))
          (candName (allocCounter st.used st.counter)) g,
        used := candName (allocCounter st.used st.counter) :: st.used,
        counter := allocCounter st.used st.counter + 1,
        named := st.named + 1 } := by
  rw [processGroup, if_neg (by simp [he]), if_neg (by simp [hex]), if_neg (by simp [hcond])]

theorem processGroup_cases (st : PassState) (g : List Nat) :
    processGroup st g = st ∨
      (g.isEmpty = false ∧ get_existing_net st.board g = none ∧
        (g.any fun i => conductorAt st.board i) = true ∧
        processGroup st g =
          { board := assignGroup
              (if st.board.findNet (candName (allocCounter st.used st.counter)) = true
                then st.board
                else st.board.addNet (candName (allocCounter st.used st.counter)))
              (candName (allocCounter st.used st.counter)) g,
            used := candName (allocCounter st.used st.counter) :: st.used,
            counter := allocCounter st.used st.counter + 1,
            named := st.named + 1 }) := by
  by_cases he : g.isEmpty = true
  · left; rw [processGroup, if_pos he]
  · by_cases hex : (get_existing_net st.board g).isSome = true
    · left; exact processGroup_skip_existing hex
    · by_cases hcond : (g.any fun i => conductorAt st.board i) = true
      · right
        have hex' : get_existing_net st.board g = none := by
          cases hh : get_existing_net st.board g with
          | none => rfl
          | some s => rw [hh] at hex; simp at hex
        exact ⟨by simpa using he, hex', hcond,
          processGroup_commit (by simpa using he) hex' hcond⟩
      · left
        rw [processGroup, if_neg he, if_neg hex]
        have hany : (g.any fun i => conductorAt st.board i) = false := by
          cases hh : (g.any fun i => conductorAt st.board i) with
          | false => rfl
          | true => exact absurd hh hcond
        rw [if_pos (by rw [hany]; rfl)]

theorem processGroup_nets_mono (st : PassState) (g : List Nat) :
    ∀ m ∈ st.board.nets, m ∈ (processGroup st g).board.nets := by
  rcases processGroup_cases st g with h | ⟨_, _, _, h⟩
  · rw [h]; exact fun m hm => hm
  · rw [h]
    intro m hm
    apply assignGroup_nets_mono
    by_cases hf : st.board.findNet (candName (allocCounter st.used st.counter)) = true
    · rw [if_pos hf]; exact hm
    · rw [if_neg hf]; exact List.mem_append_left _ hm

theorem processGroup_frame {st : PassState} {g : List Nat} {i : Nat} (hni : i ∉ g) :
    (processGroup st g).board.items[i]? = st.board.items[i]? := by
  rcases processGroup_cases st g with h | ⟨_, _, _, h⟩
  · rw [h]
  · rw [h]
    simp only
    rw [assignGroup_items_ne _ _ _ _ hni]
    by_cases hf : st.board.findNet (candName (allocCounter st.used st.counter)) = true
    · rw [if_pos hf]
    · rw [if_neg hf]; rfl

theorem processGroup_kind (st : PassState) (g : List Nat) (j : Nat) :
    (((processGroup st g).board.items[j]?).map Item.kind) =
      ((st.board.items[j]?).map Item.kind) := by
  rcases processGroup_cases st g with h | ⟨_, _, _, h⟩
  · rw [h]
  · rw [h]
    simp only
    rw [assignGroup_kind]
    by_cases hf : st.board.findNet (candName (allocCounter st.used st.counter)) = true
    · rw [if_pos hf]
    · rw [if_neg hf]; rfl

theorem processGroup_counter_mono (st : PassState) (g : List Nat) :
    st.counter ≤ (processGroup st g).counter := by
  rcases processGroup_cases st g with h | ⟨_, _, _, h⟩
  · rw [h]
  · rw [h]
    simp only
    have := (allocCounter_spec st.used st.counter).1
    omega

theorem runGroups_counter_mono : ∀ (gs : List (List Nat)) (st : PassState),
    st.counter ≤ (runGroups st gs).counter := by
  intro gs
  induction gs with
  | nil => intro st; exact le_refl _
  | cons g rest ih =>
    intro st
    rw [runGroups]
    exact le_trans (processGroup_counter_mono st g) (ih (processGroup st g))

theorem runGroups_nets_mono : ∀ (gs : List (List Nat)) (st : PassState),
    ∀ m ∈ st.board.nets, m ∈ (runGroups st gs).board.nets := by
  intro gs
  induction gs with
  | nil => intro st m hm; exact hm
  | cons g rest ih =>
    intro st m hm
    rw [runGroups]
    exact ih (processGroup st g) m (processGroup_nets_mono st g m hm)

theorem conductorAt_eq {b : Board} {i : Nat} {it : Item} (h : b.items[i]? = some it) :
    conductorAt b i = it.kind.isConductor := by
  rw [conductorAt, h]

theorem padAt_eq {b : Board} {i : Nat} {it : Item} (h : b.items[i]? = some it) :
    padAt b i = it.kind.isPad := by
  rw [padAt, h]

theorem unnamedAt_eq {b : Board} {i : Nat} {it : Item} (h : b.items[i]? = some it) :
    unnamedAt b i = isUnnamed it := by
  rw [unnamedAt, h]

/-! ## The group loop: per-item outcome -/

theorem runGroups_item_spec (b : Board) :
    ∀ (gs : List (List Nat)) (st : PassState),
      (∀ g ∈ gs, ∀ i ∈ g, st.board.items[i]? = b.items[i]?) →
      (∀ g ∈ gs, ∀ i ∈ g, ∀ it, b.items[i]? = some it → isUnnamed it = true) →
      List.Pairwise List.Disjoint gs →
      ∀ i : Nat,
        (i ∉ gs.flatten → (runGroups st gs).board.items[i]? = st.board.items[i]?) ∧
        (∀ g0 ∈ gs, i ∈ g0 → ∀ it, b.items[i]? = some it →
          ((runGroups st gs).board.items[i]? = some it ∧ it.kind.isConductor = false) ∨
          (∃ it', (runGroups st gs).board.items[i]? = some it' ∧ it'.kind = it.kind ∧
            isUnnamed it' = false ∧
            (isMechPad it.kind = true →
              it'.net = some "GND" ∧ "GND" ∈ (runGroups st gs).board.nets))) := by
  intro gs
  induction gs with
  | nil =>
    intro st _ _ _ i
    exact ⟨fun _ => rfl, fun g0 hg0 => absurd hg0 (List.not_mem_nil g0)⟩
  | cons g rest ih =>
    intro st hag hun hpw i
    rw [runGroups]
    have hagg : ∀ j ∈ g, st.board.items[j]? = b.items[j]? :=
      fun j hj => hag g (List.mem_cons_self _ _) j hj
    have hung : ∀ j ∈ g, ∀ it, b.items[j]? = some it → isUnnamed it = true :=
      fun j hj => hun g (List.mem_cons_self _ _) j hj
    have hdisj : ∀ g' ∈ rest, g.Disjoint g' := (List.pairwise_cons.mp hpw).1
    have hpw' : List.Pairwise List.Disjoint rest := (List.pairwise_cons.mp hpw).2
    have hframe_rest : ∀ g' ∈ rest, ∀ j ∈ g',
        (processGroup st g).board.items[j]? = b.items[j]? := by
      intro g' hg' j hj
      have hnj : j ∉ g := fun hjg => (hdisj g' hg') hjg hj
      rw [processGroup_frame hnj]
      exact hag g' (List.mem_cons_of_mem _ hg') j hj
    have ihs := ih (processGroup st g) hframe_rest
      (fun g' hg' => hun g' (List.mem_cons_of_mem _ hg')) hpw'
    constructor
    · intro hni
      rw [List.flatten_cons, List.mem_append] at hni
      push_neg at hni
      rw [(ihs i).1 hni.2, processGroup_frame hni.1]
    · intro g0 hg0 hig0 it hit
      rcases List.mem_cons.mp hg0 with rfl | hg0
      · have hex : get_existing_net st.board g0 = none := by
          apply get_existing_net_none
          intro j hj it2 hit2
          rw [hagg j hj] at hit2
          exact hung j hj it2 hit2
        have hni_rest : i ∉ rest.flatten := by
          intro hmem
          obtain ⟨g', hg', hi'⟩ := List.mem_flatten.mp hmem
          exact (hdisj g' hg') hig0 hi'
        by_cases hcond : (g0.any fun j => conductorAt st.board j) = true
        · have hne : g0.isEmpty = false := by
            cases g0 with
            | nil => exact absurd hig0 (List.not_mem_nil i)
            | cons a l => rfl
          have hcommit := processGroup_commit hne hex hcond
          right
          have hb0i : (if st.board.findNet (candName (allocCounter st.used st.counter)) = true
              then st.board
              else st.board.addNet (candName (allocCounter st.used st.counter))).items[i]? =
              some it := by
            by_cases hf : st.board.findNet (candName (allocCounter st.used st.counter)) = true
            · rw [if_pos hf, hagg i hig0]; exact hit
            · rw [if_neg hf]
              show st.board.items[i]? = some it
              rw [hagg i hig0]; exact hit
          obtain ⟨it', hit', hkind, hnet⟩ :=
            assignGroup_member_net (candName (allocCounter st.used st.counter)) i g0 _ it hb0i
              (Or.inl hig0)
          have hfinal : (runGroups (processGroup st g0) rest).board.items[i]? = some it' := by
            rw [(ihs i).1 hni_rest, hcommit]
            exact hit'
          refine ⟨it', hfinal, hkind, ?_, ?_⟩
          · rw [isUnnamed, hnet]
            by_cases hm : isMechPad it.kind = true
            · rw [if_pos hm]; rfl
            · rw [if_neg hm]
              exact beq_eq_false_iff_ne.mpr (candName_ne_empty _)
          · intro hm
            rw [hnet, if_pos hm]
            refine ⟨rfl, ?_⟩
            have hgnd1 : "GND" ∈ (processGroup st g0).board.nets := by
              rw [hcommit]
              exact assignGroup_gnd (candName (allocCounter st.used st.counter)) i g0 _ it hb0i
                hig0 hm
            exact runGroups_nets_mono rest (processGroup st g0) "GND" hgnd1
        · have hany : (g0.any fun j => conductorAt st.board j) = false := by
            cases hh : (g0.any fun j => conductorAt st.board j) with
            | false => rfl
            | true => exact absurd hh hcond
          have hskip : processGroup st g0 = st := by
            apply processGroup_skip_no_conductor
            intro j hj
            have := List.any_eq_false.mp hany j hj
            cases hh : conductorAt st.board j with
            | false => rfl
            | true => exact absurd hh this
          left
          constructor
          · rw [(ihs i).1 hni_rest, hskip, hagg i hig0]
            exact hit
          · have hci : conductorAt st.board i = false := by
              have := List.any_eq_false.mp hany i hig0
              cases hh : conductorAt st.board i with
              | false => rfl
              | true => exact absurd hh this
            have hsti : st.board.items[i]? = some it := by rw [hagg i hig0]; exact hit
            rw [conductorAt_eq hsti] at hci
            exact hci
      · exact (ihs i).2 g0 hg0 hig0 it hit

/-! ## Whole-pass corollaries -/

theorem Run_fst (b : Board) :
    (Run b).1 = (runGroups (initState b) (find_connected_items b)).board := rfl

theorem Run_snd (b : Board) :
    (Run b).2 = (runGroups (initState b) (find_connected_items b)).named := rfl

theorem pass_hag (b : Board) :
    ∀ g ∈ find_connected_items b, ∀ i ∈ g,
      (initState b).board.items[i]? = b.items[i]? :=
  fun _ _ _ _ => rfl

theorem pass_hun (b : Board) :
    ∀ g ∈ find_connected_items b, ∀ i ∈ g, ∀ it,
      b.items[i]? = some it → isUnnamed it = true := by
  intro g hg j hj it hit
  obtain ⟨it2, hit2, hu2⟩ := mem_find_unnamed_items.mp (mem_group_mem_collected hg hj)
  rw [hit] at hit2
  cases hit2
  exact hu2

theorem run_unnamed_isPad (b : Board) :
    ∀ (i : Nat) (it' : Item), ((Run b).1).items[i]? = some it' → isUnnamed it' = true →
      it'.kind.isPad = true := by
  intro i it' hit' hu
  have master := runGroups_item_spec b (find_connected_items b) (initState b)
    (pass_hag b) (pass_hun b) (find_connected_items_pairwise b) i
  by_cases hmem : i ∈ (find_connected_items b).flatten
  · obtain ⟨g, hg, hig⟩ := List.mem_flatten.mp hmem
    obtain ⟨it0, hit0, hu0⟩ := mem_find_unnamed_items.mp (mem_group_mem_collected hg hig)
    rcases master.2 g hg hig it0 hit0 with ⟨heq, hnc⟩ | ⟨it2, hit2, hkind, hnu, _⟩
    · rw [Run_fst, heq] at hit'
      cases hit'
      exact isPad_of_not_conductor _ hnc
    · rw [Run_fst, hit2] at hit'
      cases hit'
      exact absurd hu (by rw [hnu]; simp)
  · have huntouched := master.1 hmem
    rw [Run_fst, huntouched] at hit'
    have hcol : i ∈ find_unnamed_items b := mem_find_unnamed_items.mpr ⟨it', hit', hu⟩
    exact absurd ((find_connected_items_perm b).mem_iff.mpr hcol) hmem

theorem run_mech_pad (b : Board) (i : Nat) (it : Item) (hit : b.items[i]? = some it)
    (hm : isMechPad it.kind = true) :
    ∃ it', ((Run b).1).items[i]? = some it' ∧ it'.kind = it.kind ∧
      (it'.net = it.net ∨ (it'.net = some "GND" ∧ "GND" ∈ ((Run b).1).nets)) := by
  have master := runGroups_item_spec b (find_connected_items b) (initState b)
    (pass_hag b) (pass_hun b) (find_connected_items_pairwise b) i
  by_cases hmem : i ∈ (find_connected_items b).flatten
  · obtain ⟨g, hg, hig⟩ := List.mem_flatten.mp hmem
    rcases master.2 g hg hig it hit with ⟨heq, _⟩ | ⟨it2, hit2, hkind, _, hmech⟩
    · exact ⟨it, by rw [Run_fst]; exact heq, rfl, Or.inl rfl⟩
    · obtain ⟨hgnd, hmemn⟩ := hmech hm
      exact ⟨it2, by rw [Run_fst]; exact hit2, hkind,
        Or.inr ⟨hgnd, by rw [Run_fst]; exact hmemn⟩⟩
  · have huntouched := master.1 hmem
    exact ⟨it, by rw [Run_fst, huntouched]; exact hit, rfl, Or.inl rfl⟩

theorem checksLoop_all_none (b : Board) :
    ∀ (gs : List (List Nat)) (st : PassState),
      (∀ g ∈ gs, ∀ i ∈ g, st.board.items[i]? = b.items[i]?) →
      (∀ g ∈ gs, ∀ i ∈ g, ∀ it, b.items[i]? = some it → isUnnamed it = true) →
      List.Pairwise List.Disjoint gs →
      ∀ c ∈ checksLoop st gs, c = none := by
  intro gs
  induction gs with
  | nil => intro st _ _ _ c hc; simp [checksLoop] at hc
  | cons g rest ih =>
    intro st hag hun hpw c hc
    rw [checksLoop] at hc
    have hdisj : ∀ g' ∈ rest, g.Disjoint g' := (List.pairwise_cons.mp hpw).1
    rcases List.mem_cons.mp hc with rfl | hc
    · apply get_existing_net_none
      intro j hj it hit
      rw [hag g (List.mem_cons_self _ _) j hj] at hit
      exact hun g (List.mem_cons_self _ _) j hj it hit
    · refine ih (processGroup st g) ?_ (fun g' hg' => hun g' (List.mem_cons_of_mem _ hg'))
        (List.pairwise_cons.mp hpw).2 c hc
      intro g' hg' j hj
      have hnj : j ∉ g := fun hjg => (hdisj g' hg') hjg hj
      rw [processGroup_frame hnj]
      exact hag g' (List.mem_cons_of_mem _ hg') j hj

theorem passChecks_all_none (b : Board) : ∀ c ∈ passChecks b, c = none := by
  intro c hc
  exact checksLoop_all_none b (find_connected_items b) (initState b) (pass_hag b)
    (pass_hun b) (find_connected_items_pairwise b) c hc

theorem runGroups_used : ∀ (gs : List (List Nat)) (st : PassState),
    ∃ new : List String, (runGroups st gs).used = new ++ st.used ∧ new.Nodup ∧
      (∀ x ∈ new, x ∉ st.used) ∧ (∀ x ∈ new, ∃ k, x = candName k) := by
  intro gs
  induction gs with
  | nil =>
    intro st
    exact ⟨[], rfl, List.nodup_nil, by simp, by simp⟩
  | cons g rest ih =>
    intro st
    rw [runGroups]
    rcases processGroup_cases st g with hskip | ⟨_, _, _, hcommit⟩
    · rw [hskip]; exact ih st
    · rw [hcommit]
      obtain ⟨new, h1, h2, h3, h4⟩ := ih
        { board := assignGroup
            (if st.board.findNet (candName (allocCounter st.used st.counter)) = true
              then st.board
              else st.board.addNet (candName (allocCounter st.used st.counter)))
            (candName (allocCounter st.used st.counter)) g,
          used := candName (allocCounter st.used st.counter) :: st.used,
          counter := allocCounter st.used st.counter + 1,
          named := st.named + 1 }
      refine ⟨new ++ [candName (allocCounter st.used st.counter)], ?_, ?_, ?_, ?_⟩
      · rw [h1, List.append_assoc]
        rfl
      · refine List.Nodup.append h2 (List.nodup_singleton _) ?_
        intro x hx hx2
        rw [List.mem_singleton] at hx2
        subst hx2
        exact (h3 _ hx) (List.mem_cons_self _ _)
      · intro x hx
        rcases List.mem_append.mp hx with hx | hx
        · intro hmem
          exact (h3 x hx) (List.mem_cons_of_mem _ hmem)
        · rw [List.mem_singleton] at hx
          subst hx
          exact (allocCounter_spec st.used st.counter).2.1
      · intro x hx
        rcases List.mem_append.mp hx with hx | hx
        · exact h4 x hx
        · rw [List.mem_singleton] at hx
          exact ⟨allocCounter st.used st.counter, hx⟩

theorem runGroups_skip_all : ∀ (gs : List (List Nat)) (st : PassState),
    (∀ g ∈ gs, ∀ i ∈ g, conductorAt st.board i = false) → runGroups st gs = st := by
  intro gs
  induction gs with
  | nil => intro st _; rfl
  | cons g rest ih =>
    intro st h
    rw [runGroups]
    have hskip : processGroup st g = st :=
      processGroup_skip_no_conductor (h g (List.mem_cons_self _ _))
    rw [hskip]
    exact ih st fun g' hg' => h g' (List.mem_cons_of_mem _ hg')

theorem Run_idempotent (b : Board) : Run ((Run b).1) = ((Run b).1, 0) := by
  have hpads : ∀ g ∈ find_connected_items ((Run b).1), ∀ i ∈ g,
      conductorAt ((Run b).1) i = false := by
    intro g hg i hig
    obtain ⟨it, hit, hu⟩ := mem_find_unnamed_items.mp (mem_group_mem_collected hg hig)
    rw [conductorAt_eq hit]
    exact not_conductor_of_isPad _ (run_unnamed_isPad b i it hit hu)
  have h1 : runGroups (initState ((Run b).1)) (find_connected_items ((Run b).1)) =
      initState ((Run b).1) :=
    runGroups_skip_all _ _ hpads
  have h2 : Run ((Run b).1) =
      ((runGroups (initState ((Run b).1)) (find_connected_items ((Run b).1))).board,
        (runGroups (initState ((Run b).1)) (find_connected_items ((Run b).1))).named) := rfl
  rw [h2, h1]
  rfl

/-! ## The claims -/

/-- C1: for every collected unnamed-item sequence, the grouping pass
partitions it: the concatenation of the emitted groups is a permutation of
the collected sequence (so no collected item is omitted and no item is
duplicated within or across groups, the collected sequence itself being
duplicate-free), and every group member is a collected item. -/
theorem claim_C1_partition (b : Board) :
    List.Perm (find_connected_items b).flatten (find_unnamed_items b) ∧
      (find_unnamed_items b).Nodup :=
  ⟨find_connected_items_perm b, find_unnamed_items_nodup b⟩

/-- C2: the contact predicate is symmetric over all nine kind pairs; as a
pure function of the two items' geometry it mutates no state. -/
theorem claim_C2_contact_symmetric (a c : ItemKind) :
    are_physically_connected a c = are_physically_connected c a :=
  are_physically_connected_comm a c

/-- C3: the allocator produces names of the form `AUTO_` followed by the
decimal counter value; the counter only advances (the allocated counter is
at least the incoming counter, and the counter is monotone across the whole
pass), every candidate below the allocated one was already used, the
allocated name is fresh, and on existing names GND and AUTO_1 the first
allocation yields AUTO_2, not AUTO_1. -/
theorem claim_C3_allocator :
    (∀ (used : List String) (c : Nat), c ≤ allocCounter used c) ∧
    (∀ (used : List String) (c : Nat), candName (allocCounter used c) ∉ used) ∧
    (∀ (used : List String) (c j : Nat), c ≤ j → j < allocCounter used c →
      candName j ∈ used) ∧
    (∀ (gs : List (List Nat)) (st : PassState), st.counter ≤ (runGroups st gs).counter) ∧
    candName (allocCounter ["GND", "AUTO_1"] 1) = "AUTO_2" :=
  ⟨fun used c => (allocCounter_spec used c).1,
    fun used c => (allocCounter_spec used c).2.1,
    fun used c j h1 h2 => (allocCounter_spec used c).2.2 j h1 h2,
    fun gs st => runGroups_counter_mono gs st,
    by decide⟩

theorem claim_C3_allocator_witness :
    1 ≤ 1 ∧ 1 < allocCounter ["GND", "AUTO_1"] 1 ∧ candName 1 ∈ ["GND", "AUTO_1"] :=
  ⟨le_refl 1, by decide,
    claim_C3_allocator.2.2.1 ["GND", "AUTO_1"] 1 1 (le_refl 1) (by decide)⟩

/-- C4: after one full pass the names allocated during the pass are pairwise
distinct and none of them equals any net name that existed on the board
before the pass began. -/
theorem claim_C4_uniqueness (b : Board) :
    ∃ new : List String,
      (runGroups (initState b) (find_connected_items b)).used =
        new ++ (initState b).used ∧
      new.Nodup ∧ ∀ x ∈ new, x ∉ b.nets := by
  obtain ⟨new, h1, h2, h3, h4⟩ := runGroups_used (find_connected_items b) (initState b)
  refine ⟨new, h1, h2, ?_⟩
  intro x hx hmem
  obtain ⟨k, rfl⟩ := h4 x hx
  apply h3 _ hx
  show candName k ∈ b.nets.filter fun s => !(s == "")
  rw [List.mem_filter]
  refine ⟨hmem, ?_⟩
  rw [Bool.not_eq_eq_eq_not, Bool.not_true, beq_eq_false_iff_ne]
  exact candName_ne_empty k

/-- C5: a connected group consisting solely of pads is skipped by the group
loop: the pass state — board items, net records, used names, counter, count —
is returned unchanged, so no name is allocated, no net record is created and
no member's net reference changes. -/
theorem claim_C5_pad_only_skip (st : PassState) (g : List Nat)
    (h : ∀ i ∈ g, padAt st.board i = true) : processGroup st g = st := by
  apply processGroup_skip_no_conductor
  intro i hi
  cases hbi : st.board.items[i]? with
  | none => rw [conductorAt, hbi]
  | some it =>
    rw [conductorAt_eq hbi]
    have hp := h i hi
    rw [padAt_eq hbi] at hp
    exact not_conductor_of_isPad _ hp

theorem claim_C5_pad_only_skip_witness :
    (∀ i ∈ [0],
      padAt (Board.mk [Item.mk (ItemKind.pad ⟨0, 0⟩ (fun _ => false) "MP") none] []) i =
        true) ∧
    processGroup
        (PassState.mk
          (Board.mk [Item.mk (ItemKind.pad ⟨0, 0⟩ (fun _ => false) "MP") none] []) [] 1 0)
        [0] =
      PassState.mk
        (Board.mk [Item.mk (ItemKind.pad ⟨0, 0⟩ (fun _ => false) "MP") none] []) [] 1 0 :=
  ⟨fun i hi => by rcases List.mem_singleton.mp hi with rfl; rfl,
    claim_C5_pad_only_skip _ [0]
      fun i hi => by rcases List.mem_singleton.mp hi with rfl; rfl⟩

/-- C6: a pad whose number is in the reserved mechanical set is never routed
to a freshly allocated net: after the pass its item keeps its kind and either
keeps its original net reference (its group was skipped or it was not
collected) or references the shared ground net GND, whose record then exists
on the board (created if it was absent). -/
theorem claim_C6_ground_routing (b : Board) (i : Nat) (it : Item)
    (hit : b.items[i]? = some it) (hm : isMechPad it.kind = true) :
    ∃ it', ((Run b).1).items[i]? = some it' ∧ it'.kind = it.kind ∧
      (it'.net = it.net ∨ (it'.net = some "GND" ∧ "GND" ∈ ((Run b).1).nets)) :=
  run_mech_pad b i it hit hm

theorem claim_C6_ground_routing_witness :
    (Board.mk [Item.mk (ItemKind.pad ⟨0, 0⟩ (fun _ => false) "0") none] []).items[0]? =
      some (Item.mk (ItemKind.pad ⟨0, 0⟩ (fun _ => false) "0") none) ∧
    isMechPad (Item.mk (ItemKind.pad ⟨0, 0⟩ (fun _ => false) "0") none).kind = true ∧
    ∃ it',
      ((Run (Board.mk [Item.mk (ItemKind.pad ⟨0, 0⟩ (fun _ => false) "0") none] [])).1).items[0]? =
        some it' ∧
      it'.kind = (Item.mk (ItemKind.pad ⟨0, 0⟩ (fun _ => false) "0") none).kind ∧
      (it'.net = (Item.mk (ItemKind.pad ⟨0, 0⟩ (fun _ => false) "0") none).net ∨
        (it'.net = some "GND" ∧
          "GND" ∈ ((Run (Board.mk [Item.mk (ItemKind.pad ⟨0, 0⟩ (fun _ => false) "0") none]
            [])).1).nets)) :=
  ⟨rfl, rfl, claim_C6_ground_routing _ 0 _ rfl rfl⟩

/-- C7: running the full pass a second time immediately after a first pass
changes nothing: the second run returns the first run's board unchanged (in
particular no additional net record) and reports zero newly named
connections (so no name is allocated). -/
theorem claim_C7_idempotent (b : Board) : Run ((Run b).1) = ((Run b).1, 0) :=
  Run_idempotent b

/-- C8: a group containing a member whose net reference carries a non-empty
name is skipped whole: the group-loop iteration returns the pass state
unchanged, so every member keeps its net reference and no name is allocated
for the group. -/
theorem claim_C8_named_group_skip (st : PassState) (g : List Nat) (i : Nat) (it : Item)
    (s : String) (hi : i ∈ g) (hit : st.board.items[i]? = some it)
    (hnet : it.net = some s) (hs : s ≠ "") : processGroup st g = st :=
  processGroup_skip_existing (get_existing_net_isSome g hi hit hnet hs)

theorem claim_C8_named_group_skip_witness :
    0 ∈ [0] ∧
    (Board.mk [Item.mk (ItemKind.track ⟨0, 0⟩ ⟨1, 0⟩) (some "N")] ["N"]).items[0]? =
      some (Item.mk (ItemKind.track ⟨0, 0⟩ ⟨1, 0⟩) (some "N")) ∧
    (Item.mk (ItemKind.track ⟨0, 0⟩ ⟨1, 0⟩) (some "N")).net = some "N" ∧
    "N" ≠ "" ∧
    processGroup
        (PassState.mk
          (Board.mk [Item.mk (ItemKind.track ⟨0, 0⟩ ⟨1, 0⟩) (some "N")] ["N"]) ["N"] 1 0)
        [0] =
      PassState.mk (Board.mk [Item.mk (ItemKind.track ⟨0, 0⟩ ⟨1, 0⟩) (some "N")] ["N"])
        ["N"] 1 0 :=
  ⟨List.mem_singleton.mpr rfl, rfl, rfl, by decide,
    claim_C8_named_group_skip _ [0] 0 _ "N" (List.mem_singleton.mpr rfl) rfl rfl
      (by decide)⟩

/-- C9: when no board is loaded the invocation fails: the run returns an
error to the caller and produces no board at all, so no net record is
created and no item's net reference changes; with a loaded board it returns
the pass result. -/
theorem claim_C9_no_board_aborts :
    tryRun none = Except.error "no active board" ∧
      ∀ b : Board, tryRun (some b) = Except.ok (Run b) :=
  ⟨rfl, fun _ => rfl⟩

/-- C10: every item the collector admits is unnamed at collection time, and
during the pass the named-net search of each emitted group, evaluated on the
board as it stands when the group loop reaches that group, returns none —
the named-group skip rule never fires within a single pass. -/
theorem claim_C10_skip_never_fires (b : Board) :
    (∀ c ∈ passChecks b, c = none) ∧
      ∀ i ∈ find_unnamed_items b, unnamedAt b i = true := by
  refine ⟨passChecks_all_none b, ?_⟩
  intro i hi
  obtain ⟨it, hit, hu⟩ := mem_find_unnamed_items.mp hi
  rw [unnamedAt_eq hit]
  exact hu

theorem claim_C10_skip_never_fires_witness :
    0 ∈ find_unnamed_items
        (Board.mk [Item.mk (ItemKind.track ⟨0, 0⟩ ⟨1, 0⟩) none] []) ∧
      unnamedAt (Board.mk [Item.mk (ItemKind.track ⟨0, 0⟩ ⟨1, 0⟩) none] []) 0 = true :=
  ⟨by decide,
    (claim_C10_skip_never_fires
      (Board.mk [Item.mk (ItemKind.track ⟨0, 0⟩ ⟨1, 0⟩) none] [])).2 0 (by decide)⟩
